import Mathlib

/-!
Verification development for the OCR identifier-resolution and ingestion
pipeline.  The Python sources (data_processor.py, similarity_matcher.py,
image_processor.py, cache_manager.py, config.py) are shallowly embedded as
executable Lean definitions; floats that the sources only ever compare or
round are modelled by exact rationals, machine strings by lists of
characters, and the filesystem / external extraction service by explicit
outcome-valued environments.
-/

namespace OCR

/-! ## Identifier normalizer (`DataProcessor.clean_id`, data_processor.py)

`clean_id` first deletes every literal `"(G)"` (Python `str.replace`), then
deletes every balanced parenthesized group (the recursive pattern
`\((?:[^()]|(?R))*\)` of the `regex` module), counts the remaining ASCII
letters and digits, and rebuilds a short signature, optionally suffixed by
the last balanced group of the `"(G)"`-free string with every
`VIRTEX-.*?:s*` occurrence deleted (note: the source pattern has a literal
`s*`, not `\s*`). -/

/-- Python `str.replace("(G)", "")`: delete non-overlapping occurrences of
the three characters `(G)`, scanning left to right. -/
def removeG : List Char → List Char
  | '(' :: 'G' :: ')' :: rest => removeG rest
  | c :: rest => c :: removeG rest
  | [] => []

/-- Scanning a character list that follows an opening parenthesis at nesting
depth `d`, split it into the consumed part (up to and including the bracket
that closes depth `d`) and the remainder.  `none` when the group never
closes, in which case the `regex` engine fails to match at that opening
parenthesis. -/
def spanGroup : List Char → Nat → Option (List Char × List Char)
  | [], _ => none
  | c :: rest, d =>
    if c = ')' then
      if d = 1 then some ([c], rest)
      else (spanGroup rest (d - 1)).map (fun pr => (c :: pr.1, pr.2))
    else if c = '(' then
      (spanGroup rest (d + 1)).map (fun pr => (c :: pr.1, pr.2))
    else
      (spanGroup rest d).map (fun pr => (c :: pr.1, pr.2))

/-- Semantics of `regex.sub(r'\((?:[^()]|(?R))*\)', "", s)`: delete every balanced
parenthesized group; an opening parenthesis with no balancing close is kept
literally and scanning resumes after it.  Fuel-indexed so the recursion is
structural; `spanGroup` always consumes at least one character, so fuel
equal to the list length never runs out. -/
def stripParensAux : Nat → List Char → List Char
  | 0, cs => cs
  | _ + 1, [] => []
  | fuel + 1, c :: rest =>
    if c = '(' then
      match spanGroup rest 1 with
      | some (_, rest2) => stripParensAux fuel rest2
      | none => c :: stripParensAux fuel rest
    else c :: stripParensAux fuel rest

def stripParens (cs : List Char) : List Char := stripParensAux cs.length cs

/-- Semantics of `regex.findall(r'\((?:[^()]|(?R))*\)', s)`: the balanced parenthesized
groups of `s` in scanning order (parentheses included). -/
def collectGroupsAux : Nat → List Char → List (List Char)
  | 0, _ => []
  | _ + 1, [] => []
  | fuel + 1, c :: rest =>
    if c = '(' then
      match spanGroup rest 1 with
      | some (g, rest2) => ('(' :: g) :: collectGroupsAux fuel rest2
      | none => collectGroupsAux fuel rest
    else collectGroupsAux fuel rest

def balancedGroups (cs : List Char) : List (List Char) :=
  collectGroupsAux cs.length cs

/-- The tail of a `VIRTEX-.*?:s*` match after the mandatory `-`: lazily
scan to the first `:` (the dot of the pattern does not cross a newline),
then greedily consume literal `s` characters. -/
def afterVirtexColon : List Char → Option (List Char)
  | [] => none
  | c :: rest =>
    if c = ':' then some (rest.dropWhile (· = 's'))
    else if c = '\n' then none
    else afterVirtexColon rest

/-- Try to match `VIRTEX-.*?:s*` at the head of the list, returning the
remainder after the match. -/
def matchVirtex (cs : List Char) : Option (List Char) :=
  if cs.take 7 = "VIRTEX-".toList then afterVirtexColon (cs.drop 7)
  else none

/-- Semantics of `re.sub(r"VIRTEX-.*?:s*", "", s)`: delete every occurrence, scanning
left to right.  A successful match consumes at least eight characters, so
fuel equal to the list length never runs out. -/
def virtexSubAux : Nat → List Char → List Char
  | 0, cs => cs
  | _ + 1, [] => []
  | fuel + 1, c :: rest =>
    match matchVirtex (c :: rest) with
    | some rem => virtexSubAux fuel rem
    | none => c :: virtexSubAux fuel rest

def virtexSub (cs : List Char) : List Char := virtexSubAux cs.length cs

/-- Embedding of `DataProcessor.clean_id` (data_processor.py, lines 171-201).  `re`'s
`[a-zA-Z]` is `Char.isAlpha` and `\d` is `Char.isDigit` on the ASCII
identifiers this system handles. -/
def clean_id (s : String) : String :=
  let idv := removeG s.toList
  let stripped := stripParens idv
  let letters := stripped.filter Char.isAlpha
  let digits := stripped.filter Char.isDigit
  if 2 ≤ letters.length ∧ 4 ≤ digits.length then
    match (balancedGroups idv).getLast? with
    | some g =>
        (letters.take 2 ++ digits.take 4).asString ++ " " ++ (virtexSub g).asString
    | none => (letters.take 2 ++ digits.take 4).asString
  else if 2 ≤ letters.length then (letters.take 2 ++ digits).asString
  else if 4 ≤ digits.length then (letters ++ digits.take 4).asString
  else idv.asString

/-! ## Data model

A catalog record is the parsed extraction content (`{id, table}`) with the
source `image_path` attached (cache_manager.py `add_to_cache`).  A table
value is either a bare number or a `{MIN, NOM, MAX}`-style object whose
entries may be `null`; numbers are modelled by exact rationals.  The cache
is a Python `dict` keyed by the parsed identifier: an insertion-ordered
association list with unique keys, where assigning to an existing key keeps
its position. -/

/-! Rational arithmetic helpers.  The field operations of `ℚ` are marked
irreducible upstream, which blocks kernel evaluation inside `decide`; the
helpers below are the same operations written through `mkRat`, with
bridging lemmas showing they agree with the field operations. -/

/-- Multiplication on `ℚ`, kernel-computable. -/
def qmul (a b : ℚ) : ℚ := mkRat (a.num * b.num) (a.den * b.den)

/-- Multiplication by a natural number, kernel-computable. -/
def qmulNat (a : ℚ) (n : Nat) : ℚ := mkRat (a.num * n) a.den

instance {ε α : Type} [DecidableEq ε] [DecidableEq α] :
    DecidableEq (Except ε α) := fun a b =>
  match a, b with
  | .ok x, .ok y =>
    decidable_of_iff (x = y) ⟨fun h => h ▸ rfl, fun h => by injection h⟩
  | .ok _, .error _ => isFalse (fun h => by injection h)
  | .error _, .ok _ => isFalse (fun h => by injection h)
  | .error x, .error y =>
    decidable_of_iff (x = y) ⟨fun h => h ▸ rfl, fun h => by injection h⟩

inductive TableEntry where
  | num (v : ℚ)
  | obj (fields : List (String × Option ℚ))
deriving DecidableEq

structure Record where
  id : String
  table : List (String × TableEntry)
  image_path : String
deriving DecidableEq

abbrev Cache := List (String × Record)

/-- Python `dict` assignment `cache[k] = v`: overwrite in place, or append. -/
def dictUpsert (k : String) (v : Record) : Cache → Cache
  | [] => [(k, v)]
  | (k', v') :: rest =>
    if k' = k then (k, v) :: rest else (k', v') :: dictUpsert k v rest

/-- Embedding of `CacheManager.get_cached_paths`: the `image_path` of every record. -/
def cachedPaths (c : Cache) : List String := c.map (fun p => p.2.image_path)

/-- Embedding of `CacheManager.get_cache_keys` / Python `in` on a dict. -/
def cacheKeys (c : Cache) : List String := c.map Prod.fst

/-! ## Similarity scoring (`SimilarityMatcher`, similarity_matcher.py)

`rapidfuzz.fuzz.ratio` is the normalized indel similarity scaled to 0-100:
with `M` the length of a longest common subsequence and `n₁ + n₂` the total
length, the score is `100 · 2M / (n₁ + n₂)` (and 100 for two empty
strings).  It is modelled exactly over `ℚ`; the float computed by the
library rounds to the same comparisons at the threshold used here. -/

/-- One dynamic-programming row update for the longest-common-subsequence
length: `prevTail` is the previous row from the diagonal cell onwards and
`left` the cell just computed in the current row. -/
def lcsNext (x : Char) : List Char → List Nat → Nat → List Nat
  | y :: ys, diag :: rest, left =>
    let v := if x = y then diag + 1 else max (rest.headD 0) left
    v :: lcsNext x ys rest v
  | _, _, _ => []

/-- Length of a longest common subsequence, by row-wise dynamic
programming (kernel-evaluable). -/
def lcsLen (xs ys : List Char) : Nat :=
  (xs.foldl (fun prev x => 0 :: lcsNext x ys prev 0)
    (List.replicate (ys.length + 1) 0)).getLastD 0

/-- Embedding of `rapidfuzz.fuzz.ratio` on two already-cleaned character lists. -/
def fuzzRatio (xs ys : List Char) : ℚ :=
  if xs.length + ys.length = 0 then 100
  else mkRat (200 * lcsLen xs ys) (xs.length + ys.length)

/-- Semantics of `re.sub(r'[^a-zA-Z0-9]', '', s)`. -/
def cleanAlnum (s : String) : List Char := s.toList.filter Char.isAlphanum

/-- Embedding of `SimilarityMatcher.similarity_score`. -/
def similarity_score (code₁ code₂ : String) : ℚ :=
  fuzzRatio (cleanAlnum code₁) (cleanAlnum code₂)

/-- Embedding of `SimilarityMatcher.similarity_score_stripped`: balanced parenthesized
groups removed from both sides first. -/
def similarity_score_stripped (code₁ code₂ : String) : ℚ :=
  fuzzRatio ((stripParens code₁.toList).filter Char.isAlphanum)
    ((stripParens code₂.toList).filter Char.isAlphanum)

/-- config.py `SIMILARITY_THRESHOLD = 85`. -/
def SIMILARITY_THRESHOLD : ℚ := 85

/-- The ephemeral per-candidate tuple built by `find_best_match`. -/
structure Cand where
  id : String
  record : Record
  raw : ℚ
  stripped : ℚ

/-- Stable insertion of `x` after every element whose key is `≥ k x`:
inserting the elements of a list in order yields exactly Python's stable
`list.sort(key=…, reverse=True)`. -/
def insDesc (k : Cand → ℚ) (x : Cand) : List Cand → List Cand
  | [] => [x]
  | y :: ys => if k y < k x then x :: y :: ys else y :: insDesc k x ys

/-- Python's stable descending sort by key `k`. -/
def sortDesc (k : Cand → ℚ) (l : List Cand) : List Cand :=
  l.foldl (fun acc x => insDesc k x acc) []

/-- The tuple `(id_value, dict_object, similarity_score,
stripped_similarity_score)` appended for each cache item. -/
def mkCand (target_id : String) (p : String × Record) : Cand :=
  ⟨p.1, p.2, similarity_score (clean_id p.1) target_id,
    similarity_score_stripped (clean_id p.1) target_id⟩

/-- Embedding of `SimilarityMatcher.find_best_match` (similarity_matcher.py, lines
51-107).  The second sort is applied, as in the source, to the list already
sorted by the raw score. -/
def find_best_match (target_id : String) (cache : Cache) :
    Option (String × Record × ℚ) :=
  if cache.isEmpty then none
  else
    match sortDesc (fun c => c.raw) (cache.map (mkCand target_id)) with
    | [] => none
    | b :: tail =>
      if SIMILARITY_THRESHOLD ≤ b.raw then some (b.id, b.record, b.raw)
      else
        match sortDesc (fun c => c.stripped) (b :: tail) with
        | [] => none
        | b₂ :: _ =>
          if SIMILARITY_THRESHOLD ≤ b₂.stripped then
            some (b₂.id, b₂.record, b₂.stripped)
          else none

/-! ## Image normalizer band-crop (`ImageProcessor._crop_company_section`,
image_processor.py, lines 64-129)

A grayscale image is a list of pixel rows.  The source scans rows from
`height - 1` down to `start_search_y + 1` (the Python `range` excludes its
stop value `start_search_y`), counting runs of "white" rows; a row is white
when strictly more than 80% of its pixels exceed brightness 150
(config.py).  `int(height * (1 - 0.30))` is modelled by the exact
`7 * height / 10` truncation, and the strict float comparison
`count / width > 0.80` by the exact `5 * count > 4 * width`; both agree
with the float evaluation at every realistic image size. -/

structure Img where
  rows : List (List Nat)
deriving DecidableEq

def Img.height (img : Img) : Nat := img.rows.length

def Img.width (img : Img) : Nat := (img.rows.headD []).length

/-- Every row has the image's width (numpy images are rectangular). -/
def Img.rectangular (img : Img) : Bool :=
  img.rows.all (fun r => r.length = img.width)

/-- config.py `BRIGHTNESS_THRESHOLD = 150`. -/
def BRIGHTNESS_THRESHOLD : Nat := 150

/-- config.py `REQUIRED_CONSECUTIVE_LINES = 3`. -/
def REQUIRED_CONSECUTIVE_LINES : Nat := 3

/-- Value of `int(height * (1 - SEARCH_AREA_RATIO))` with the default ratio 0.30. -/
def startSearchY (height : Nat) : Nat := 7 * height / 10

/-- The scanned y-coordinates `range(height - 1, start_search_y, -1)` in
scan order (strictly descending, stopping above `start_search_y`). -/
def scanYs (height : Nat) : List Nat :=
  (List.range (height - 1 - startSearchY height)).map (fun i => height - 1 - i)

/-- Test `percentage_white > percentage_threshold` for the row at `y`. -/
def isRowWhite (img : Img) (y : Nat) : Bool :=
  5 * ((img.rows.getD y []).countP (fun px => decide (BRIGHTNESS_THRESHOLD < px)))
    > 4 * img.width

/-- One iteration of the scan loop: the accumulator carries
`consecutive_white_lines` and `found_band_positions`. -/
def bandStep (img : Img) (acc : Nat × List Nat) (y : Nat) : Nat × List Nat :=
  if isRowWhite img y then (acc.1 + 1, acc.2)
  else if REQUIRED_CONSECUTIVE_LINES ≤ acc.1 then (0, acc.2 ++ [y + 1])
  else (0, acc.2)

/-- The list `found_band_positions` after the scan, including the band recorded at
`start_search_y + 1` when the scan ends inside a white run. -/
def foundBandPositions (img : Img) : List Nat :=
  if REQUIRED_CONSECUTIVE_LINES ≤
      ((scanYs img.height).foldl (bandStep img) (0, [])).1 then
    ((scanYs img.height).foldl (bandStep img) (0, [])).2
      ++ [startSearchY img.height + 1]
  else ((scanYs img.height).foldl (bandStep img) (0, [])).2

/-- Embedding of `ImageProcessor._crop_company_section` at the config.py defaults.
`image.crop((0, 0, width, crop_y))` keeps the pixel rows `[0, crop_y)` in
full width, i.e. `rows.take crop_y`. -/
def crop_company_section (img : Img) : Img :=
  if 2 ≤ (foundBandPositions img).length then
    ⟨img.rows.take ((foundBandPositions img).getD 1 0)⟩
  else if (foundBandPositions img).length = 1 then
    ⟨img.rows.take ((foundBandPositions img).getD 0 0)⟩
  else img

def Img.allBlack (img : Img) : Bool := img.rows.all (fun r => r.all (· = 0))

def Img.allWhite (img : Img) : Bool := img.rows.all (fun r => r.all (· = 255))

/-! ## Catalog store persistence (`CacheManager._load_cache` / `save_cache`,
cache_manager.py, lines 32-63)

The file and JSON layers are external; they are embedded by the outcome of
the read or write attempt, and the definitions reproduce exactly the
`try/except` routing of the source: `FileNotFoundError` and
`json.JSONDecodeError` yield an empty cache, a successful read yields its
content, and a failed write is logged and re-raised (`raise`). -/

inductive ReadOutcome where
  | fileAbsent
  | invalidJson
  | content (c : Cache)

/-- Embedding of `CacheManager._load_cache`. -/
def load_cache : ReadOutcome → Cache
  | .fileAbsent => []
  | .invalidJson => []
  | .content c => c

inductive WriteOutcome where
  | success
  | ioError (msg : String)

/-- Embedding of `CacheManager.save_cache`: `Except.error` is the re-raised `IOError`. -/
def save_cache (_c : Cache) : WriteOutcome → Except String Unit
  | .success => .ok ()
  | .ioError msg => .error msg

/-! ## Ingestion loop (`CacheManager.process_new_images`, cache_manager.py,
lines 136-205)

The filesystem and the extraction model are embedded as an environment:
`outcome p` is what happens when the loop processes the image at path `p`.
`openErr` is an exception raised before `processed_path` is assigned
(`Image.open` / `process_image`); `stageErr` one raised after the
assignment but before the model call (`processed_img.save`); `modelErr` an
exception from `generate_content`; `badJson` a response on which
`clean_json_response` returns `None`; `parsed` a successfully parsed
`{id, table}` content.

The loop state carries the live cache, the `files_to_move` and
`files_to_remove` lists, the Python local variable `processed_path`
(`none` while still unassigned), and the list of paths sent to the model.
The `except` handler appends `image_path` to `files_to_move` and then
reads `processed_path`; when no iteration has assigned it yet that read
raises `UnboundLocalError`, which escapes `process_new_images` — modelled
by `Except.error` carrying the state at the abort (the pending moves are
then never performed and the cache is not saved). -/

inductive ImgOutcome where
  | openErr
  | stageErr
  | modelErr
  | badJson
  | parsed (id : String) (table : List (String × TableEntry))
deriving DecidableEq

structure IngestEnv where
  outcome : String → ImgOutcome
  isDir : String → Bool

structure IngestState where
  cache : Cache
  toMove : List String
  toRemove : List String
  lastProcessed : Option String
  calls : List String
deriving DecidableEq

def initState (cache : Cache) : IngestState :=
  { cache := cache, toMove := [], toRemove := [], lastProcessed := none,
    calls := [] }

/-- Semantics of `os.path.join` for a directory with no trailing separator. -/
def joinPath (dir file : String) : String := dir ++ "/" ++ file

/-- Semantics of `pathlib.Path(f).suffix`: the extension of the final component, empty
when there is no dot, the only dot leads the name, or the name ends with
the dot. -/
def pathSuffix (f : String) : String :=
  let cs := f.toList
  let ext := cs.reverse.takeWhile (· ≠ '.')
  if ext.length = cs.length then ""
  else if ext.length = 0 then ""
  else if ext.length = cs.length - 1 then ""
  else ('.' :: ext.reverse).asString

/-- Embedding of `CacheManager._is_image_file` with config.py
`SUPPORTED_IMAGE_EXTENSIONS = {".jpg", ".jpeg"}`; `.lower()` is the
character-wise ASCII lowering. -/
def isImageFile (f : String) : Bool :=
  ((pathSuffix f).toList.map Char.toLower).asString ∈
    ([".jpg", ".jpeg"] : List String)

/-- One iteration of the `for filename in os.listdir(...)` loop, given the
`cached_paths` snapshot `cp` taken before the loop. -/
def ingestStep (env : IngestEnv) (folder pdir : String) (cp : List String)
    (st : IngestState) (f : String) : Except IngestState IngestState :=
  let p := joinPath folder f
  if ¬ isImageFile f = true ∨ env.isDir p = true ∨ p ∈ cp then .ok st
  else
    let pp := joinPath pdir f
    match env.outcome p with
    | .openErr =>
      match st.lastProcessed with
      | none => .error { st with toMove := st.toMove ++ [p] }
      | some q =>
        .ok { st with toMove := st.toMove ++ [p], toRemove := st.toRemove ++ [q] }
    | .stageErr =>
      .ok { st with lastProcessed := some pp, toMove := st.toMove ++ [p],
                    toRemove := st.toRemove ++ [pp] }
    | .modelErr =>
      .ok { st with lastProcessed := some pp, calls := st.calls ++ [p],
                    toMove := st.toMove ++ [p], toRemove := st.toRemove ++ [pp] }
    | .badJson =>
      .ok { st with lastProcessed := some pp, calls := st.calls ++ [p],
                    toMove := st.toMove ++ [p], toRemove := st.toRemove ++ [pp] }
    | .parsed id tbl =>
      let st' := { st with lastProcessed := some pp, calls := st.calls ++ [p] }
      if tbl.isEmpty then
        let st'' := { st' with toMove := st'.toMove ++ [p],
                               toRemove := st'.toRemove ++ [pp] }
        if id ∈ cacheKeys st''.cache then .ok st''
        else .ok { st'' with cache := dictUpsert id ⟨id, tbl, p⟩ st''.cache }
      else .ok { st' with cache := dictUpsert id ⟨id, tbl, p⟩ st'.cache }

/-- The `for` loop over the listing: process each filename in order,
propagating an uncaught exception. -/
def ingestFold (env : IngestEnv) (folder pdir : String) (cp : List String) :
    IngestState → List String → Except IngestState IngestState
  | st, [] => .ok st
  | st, f :: rest =>
    match ingestStep env folder pdir cp st f with
    | .ok st' => ingestFold env folder pdir cp st' rest
    | .error e => .error e

/-- Embedding of `CacheManager.process_new_images` over a directory listing: the
`cached_paths` snapshot is taken once, each listed filename is processed in
order, and an uncaught exception aborts the whole call (`Except.error`). -/
def processNewImages (env : IngestEnv) (folder pdir : String)
    (listing : List String) (cache : Cache) : Except IngestState IngestState :=
  ingestFold env folder pdir (cachedPaths cache) (initState cache) listing

/-- The parsed identifier the environment would extract at path `p`, when
processing reaches a parse at all. -/
def parsedId (env : IngestEnv) (p : String) : Option String :=
  match env.outcome p with
  | .parsed id _ => some id
  | _ => none

/-- Two listed files never parse to the same identifier (the first parses
to nothing, or their parsed identifiers differ). -/
abbrev idsDisjoint (env : IngestEnv) (folder : String) (f g : String) : Prop :=
  parsedId env (joinPath folder f) = none ∨
  parsedId env (joinPath folder f) ≠ parsedId env (joinPath folder g)

/-! ## Metrics deriver (`DataProcessor._calculate_max_coplanarity`,
data_processor.py, lines 153-169)

The loop takes the first label of `COPLANARITY_FIELDS` for which
`field in table_data and 'MAX' in table_data[field]` holds and returns
`round(table_data[field]['MAX'] * MM_TO_MIL, 5)`; if no label qualifies it
returns `0.0` after a logged warning.  Python raises `TypeError` when the
membership test `'MAX' in v` hits a bare number, or when the stored `MAX`
is `null` and is multiplied — both are `Except.error`.  `round` is Python's
ties-to-even rounding, exact over `ℚ` here. -/

/-- config.py `COPLANARITY_FIELDS`. -/
def COPLANARITY_FIELDS : List String := ["aaa", "bbb", "ccc", "ddd", "eee"]

/-- config.py `MM_TO_MIL = 39.4`. -/
def MM_TO_MIL : ℚ := mkRat 394 10

/-- Round `q = n/d` to the nearest integer, ties to even (Python `round`):
`f = ⌊q⌋` is the floor division `n.fdiv d`, and the fractional part
`r = (n - f·d)/d` is compared with `1/2` through `r2 = 2·(n - f·d)`
against `d` (exact, since `d > 0`). -/
def roundHalfEven (q : ℚ) : ℤ :=
  let f := Int.fdiv q.num q.den
  let r2 := 2 * (q.num - f * q.den)
  if r2 < q.den then f
  else if (q.den : ℤ) < r2 then f + 1
  else if f % 2 = 0 then f else f + 1

/-- Python `round(q, 5)`. -/
def roundTo5 (q : ℚ) : ℚ := mkRat (roundHalfEven (qmulNat q 100000)) 100000

def calcMaxCopAux (t : List (String × TableEntry)) :
    List String → Except String ℚ
  | [] => .ok 0
  | f :: fs =>
    match t.lookup f with
    | none => calcMaxCopAux t fs
    | some (.num _) => .error "TypeError: argument of type 'float' is not iterable"
    | some (.obj fields) =>
      match fields.lookup "MAX" with
      | none => calcMaxCopAux t fs
      | some none => .error "TypeError: unsupported operand for NoneType"
      | some (some v) => .ok (roundTo5 (qmul v MM_TO_MIL))

/-- Embedding of `DataProcessor._calculate_max_coplanarity`. -/
def calc_max_coplanarity (t : List (String × TableEntry)) : Except String ℚ :=
  calcMaxCopAux t COPLANARITY_FIELDS

/-- Modelled from the claim's words (C9): the value is derived from the
first priority label *present* in the table, with a zero default when none
of the five labels is present; `none` when the claimed field bears no
numeric `MAX` to derive a value from. -/
def claimedMaxCoplanarity (t : List (String × TableEntry)) : Option ℚ :=
  match COPLANARITY_FIELDS.find? (fun f => (t.lookup f).isSome) with
  | none => some 0
  | some f =>
    match t.lookup f with
    | some (.obj fields) =>
      match fields.lookup "MAX" with
      | some (some v) => some (roundTo5 (qmul v MM_TO_MIL))
      | _ => none
    | _ => none

/-- Per-label well-formedness for the amended C9 statement: the label is
absent, or present as an object whose `MAX` entry (when the key exists) is
non-null — the exception-free region of the source. -/
def copFieldOk (t : List (String × TableEntry)) (f : String) : Bool :=
  match t.lookup f with
  | none => true
  | some (.num _) => false
  | some (.obj fields) =>
    match fields.lookup "MAX" with
    | some none => false
    | _ => true

def copWellFormed (t : List (String × TableEntry)) : Bool :=
  COPLANARITY_FIELDS.all (copFieldOk t)

/-- The numeric `MAX` carried by label `f`, when `f` is present as an
object with a non-null `MAX` entry. -/
def fieldMaxValue (t : List (String × TableEntry)) (f : String) : Option ℚ :=
  match t.lookup f with
  | some (.obj fields) =>
    match fields.lookup "MAX" with
    | some (some v) => some v
    | _ => none
  | _ => none

/-- The `MAX` value of the first priority label present with a `MAX` key. -/
def firstMaxValue (t : List (String × TableEntry)) : Option ℚ :=
  COPLANARITY_FIELDS.findSome? (fieldMaxValue t)

/-! ## Concrete fixtures used by witnesses and counterexamples -/

/-- Two source images that parse to the same identifier `"X"` with
non-empty tables. -/
def envDup : IngestEnv where
  outcome p :=
    if p = "imgs/a.jpg" then .parsed "X" [("e", .num 1)]
    else if p = "imgs/b.jpg" then .parsed "X" [("e", .num 2)]
    else .badJson
  isDir _ := false

/-- Two source images with distinct fresh identifiers. -/
def envTwo : IngestEnv where
  outcome p :=
    if p = "imgs/a.jpg" then .parsed "X" [("e", .num 1)]
    else if p = "imgs/b.jpg" then .parsed "Y" [("e", .num 2)]
    else .badJson
  isDir _ := false

/-- The first image fails before `processed_path` is assigned; the second
would parse fine. -/
def envBug : IngestEnv where
  outcome p :=
    if p = "imgs/a.jpg" then .openErr
    else .parsed "Y" [("e", .num 2)]
  isDir _ := false

/-- A response that parses with an empty table and a fresh identifier. -/
def envEmptyTable : IngestEnv where
  outcome p :=
    if p = "imgs/a.jpg" then .parsed "X" []
    else .badJson
  isDir _ := false

/-- A 30×5 synthetic image: white bands (rows 27-29 and 23-25) separated and
topped by black rows inside the scanned area. -/
def imgTwoBands : Img :=
  ⟨List.replicate 23 (List.replicate 5 0)
    ++ List.replicate 3 (List.replicate 5 255)
    ++ [List.replicate 5 0]
    ++ List.replicate 3 (List.replicate 5 255)⟩

/-- A 20×1 all-white synthetic image. -/
def imgAllWhite : Img := ⟨List.replicate 20 [255]⟩

/-- A catalog entry whose cleaned identifier scores exactly 85 against the
target `"CCCCCCCCCCCCCCCCC"` (17 `C`s): the cleaned strings have lengths
23 and 17 with a common subsequence of 17, and `200·17/40 = 85`. -/
def recW : Record :=
  ⟨"AB1234(CCCCCCCCCCCCCCCCC)", [("e", .num 1)], "imgs/w.jpg"⟩

def cacheW : Cache := [("AB1234(CCCCCCCCCCCCCCCCC)", recW)]

def targetW : String := "CCCCCCCCCCCCCCCCC"

/-- Table with `ccc` present but bearing no `MAX`, and `eee` bearing one. -/
def tblCccNoMax : List (String × TableEntry) :=
  [("ccc", .obj [("MIN", some 1)]), ("eee", .obj [("MAX", some 2)])]

/-- The dimension table of the specification's end-to-end scenario. -/
def tblE2E : List (String × TableEntry) :=
  [("øb", .obj [("MIN", some (mkRat 25 100)), ("NOM", some (mkRat 3 10)),
                ("MAX", some (mkRat 35 100))]),
   ("e", .num (mkRat 5 10)),
   ("ccc", .obj [("MIN", none), ("NOM", none), ("MAX", some (mkRat 1 10))])]

/-! # Theorems -/

/-- The `mkRat` form of multiplication agrees with the field operation. -/
theorem qmul_eq_mul (a b : ℚ) : qmul a b = a * b := by
  rw [qmul, Rat.mul_def, Rat.normalize_eq_mkRat]

theorem qmulNat_eq_mul (a : ℚ) (n : Nat) : qmulNat a n = a * n := by
  rw [← qmul_eq_mul]
  simp [qmul, qmulNat, Rat.num_natCast, Rat.den_natCast]

/-- The scaled form of `fuzz.ratio` agrees with the real-valued formula
`100 · 2M / (n₁ + n₂)`. -/
theorem fuzzRatio_eq_div (xs ys : List Char)
    (h : xs.length + ys.length ≠ 0) :
    fuzzRatio xs ys =
      (200 * lcsLen xs ys : ℚ) / (xs.length + ys.length : ℚ) := by
  rw [fuzzRatio, if_neg h, Rat.mkRat_eq_div]
  push_cast
  ring

/-! ### C5 / C6 — identifier canonicalization -/

/-- C5 (counterexample): on `"FF(G)/EF1152"` the code's signature keeps the
*first two* letters of the parenthetical-free string `"FF/EF1152"`, namely
`"FF"`, not `"EF"` as the claim states. -/
theorem clean_id_vector1_letters_counterexample :
    clean_id "FF(G)/EF1152" = "FF1152"
    ∧ ("FF1152".toList.filter Char.isAlpha).asString = "FF"
    ∧ "FF" ≠ "EF"
    ∧ "FF1152" ≠ "EF1152" := by decide

/-- C5 (amended): `clean_id` maps the first documented vector to
`"FF1152"` (letters `"FF"`, digits `"1152"`), and on the second vector it
appends the trailing parenthetical group, `"VIRTEX-4:"` stripped, after a
space. -/
theorem clean_id_documented_vectors :
    clean_id "FF(G)/EF1152" = "FF1152"
    ∧ clean_id "FF(G)1152 (VIRTEX-4: XQ4VFX100)" = "FF1152 ( XQ4VFX100)" := by
  decide

/-- C6 (counterexample): the original string `"AB(G)1234"` has a balanced
parenthetical group, yet the result `"AB1234"` carries no parenthetical
suffix at all — the suffix decision is made on the `"(G)"`-free string,
not on the original. -/
theorem clean_id_suffix_counterexample :
    clean_id "AB(G)1234" = "AB1234"
    ∧ balancedGroups "AB(G)1234".toList ≠ []
    ∧ "AB1234".toList.count '(' = 0 := by decide

/-- C6 (amended): full case analysis of `clean_id`.  After `"(G)"` removal
and balanced-group stripping, with `letters`/`digits` the remaining ASCII
letters and digits: with ≥2 letters and ≥4 digits the signature is the
first two letters and first four digits, suffixed (after a space) by the
last balanced group *of the `"(G)"`-free string* with `VIRTEX-…:`
occurrences removed, exactly when that string still has a balanced group;
with ≥2 letters only, first two letters plus all digits; with ≥4 digits
only, all letters plus first four digits; otherwise the `"(G)"`-free
input (not the original input) is returned. -/
theorem clean_id_case_analysis (s : String) :
    (2 ≤ ((stripParens (removeG s.toList)).filter Char.isAlpha).length →
     4 ≤ ((stripParens (removeG s.toList)).filter Char.isDigit).length →
      clean_id s = ((balancedGroups (removeG s.toList)).getLast?.elim
        (((stripParens (removeG s.toList)).filter Char.isAlpha).take 2
          ++ ((stripParens (removeG s.toList)).filter Char.isDigit).take 4).asString
        (fun g =>
          (((stripParens (removeG s.toList)).filter Char.isAlpha).take 2
            ++ ((stripParens (removeG s.toList)).filter Char.isDigit).take 4).asString
          ++ " " ++ (virtexSub g).asString)))
    ∧ (2 ≤ ((stripParens (removeG s.toList)).filter Char.isAlpha).length →
       ((stripParens (removeG s.toList)).filter Char.isDigit).length < 4 →
        clean_id s = (((stripParens (removeG s.toList)).filter Char.isAlpha).take 2
          ++ (stripParens (removeG s.toList)).filter Char.isDigit).asString)
    ∧ (((stripParens (removeG s.toList)).filter Char.isAlpha).length < 2 →
       4 ≤ ((stripParens (removeG s.toList)).filter Char.isDigit).length →
        clean_id s = ((stripParens (removeG s.toList)).filter Char.isAlpha
          ++ ((stripParens (removeG s.toList)).filter Char.isDigit).take 4).asString)
    ∧ (((stripParens (removeG s.toList)).filter Char.isAlpha).length < 2 →
       ((stripParens (removeG s.toList)).filter Char.isDigit).length < 4 →
        clean_id s = (removeG s.toList).asString) := by
  unfold clean_id
  refine ⟨fun hL hD => ?_, fun hL hD => ?_, fun hL hD => ?_, fun hL hD => ?_⟩
  · rw [if_pos ⟨hL, hD⟩]
    cases hg : (balancedGroups (removeG s.toList)).getLast? <;> simp [hg]
  · rw [if_neg (by omega), if_pos hL]
  · rw [if_neg (by omega), if_neg (by omega), if_pos hD]
  · rw [if_neg (by omega), if_neg (by omega), if_neg (by omega)]

/-- C6 witness: the amended case analysis evaluated on the second
documented vector (branch with ≥2 letters, ≥4 digits and a surviving
balanced group). -/
theorem clean_id_case_analysis_witness :
    clean_id "FF(G)1152 (VIRTEX-4: XQ4VFX100)" = "FF1152 ( XQ4VFX100)" := by
  have h := (clean_id_case_analysis "FF(G)1152 (VIRTEX-4: XQ4VFX100)").1
    (by decide) (by decide)
  rw [h]; decide

/-! ### C8 — catalog store error semantics -/

/-- C8: `load()` yields an empty catalog both when the persisted file is
absent and when its content is malformed JSON (and the stored content on a
successful read); `save()` propagates the write error to the caller and
only succeeds when the write does. -/
theorem catalog_store_error_semantics :
    load_cache .fileAbsent = []
    ∧ load_cache .invalidJson = []
    ∧ (∀ c : Cache, load_cache (.content c) = c)
    ∧ (∀ c : Cache, save_cache c .success = .ok ())
    ∧ (∀ (c : Cache) (msg : String), save_cache c (.ioError msg) = .error msg) :=
  ⟨rfl, rfl, fun _ => rfl, fun _ => rfl, fun _ _ => rfl⟩

/-! ### C9 — coplanarity fallback priority -/

/-- C9 (counterexample): in a table containing both `"ccc"` (without a
`MAX` entry) and `"eee"` (with one), the first priority label *present* is
`"ccc"`, yet the code derives the value from `"eee"` — `"ccc"` bears no
value the claim's reading could produce. -/
theorem coplanarity_first_present_counterexample :
    calc_max_coplanarity tblCccNoMax = .ok (mkRat 394 5)
    ∧ COPLANARITY_FIELDS.find? (fun f => (tblCccNoMax.lookup f).isSome)
        = some "ccc"
    ∧ fieldMaxValue tblCccNoMax "ccc" = none
    ∧ claimedMaxCoplanarity tblCccNoMax = none := by decide

theorem calcMaxCopAux_spec (t : List (String × TableEntry)) :
    ∀ fs : List String, (∀ f ∈ fs, copFieldOk t f = true) →
      calcMaxCopAux t fs =
        .ok ((fs.findSome? (fieldMaxValue t)).elim 0
          (fun v => roundTo5 (qmul v MM_TO_MIL)))
  | [], _ => rfl
  | f :: fs, h => by
    have hf := h f (List.mem_cons_self f fs)
    have ih := calcMaxCopAux_spec t fs (fun g hg => h g (List.mem_cons_of_mem f hg))
    unfold calcMaxCopAux
    rw [List.findSome?_cons]
    unfold copFieldOk at hf
    unfold fieldMaxValue
    cases hl : t.lookup f with
    | none => simpa [hl] using ih
    | some e =>
      cases e with
      | num v => rw [hl] at hf; exact absurd hf (by simp)
      | obj fields =>
        rw [hl] at hf
        cases hm : fields.lookup "MAX" with
        | none => simpa [hm] using ih
        | some w =>
          cases w with
          | none => simp [hm] at hf
          | some v => simp [hm]

/-- C9 (amended): the derived max-coplanarity is the (converted, rounded)
`MAX` of the first field of the fixed priority list
`["aaa","bbb","ccc","ddd","eee"]` that is present in the table *with a
`MAX` entry*; when no label qualifies the derivation yields the zero
default instead of failing.  The hypothesis restricts to tables on which
the source raises no `TypeError` (present priority labels are objects with
non-null `MAX` entries when the key exists). -/
theorem calc_max_coplanarity_spec (t : List (String × TableEntry))
    (h : copWellFormed t = true) :
    calc_max_coplanarity t =
      .ok ((firstMaxValue t).elim 0 (fun v => roundTo5 (qmul v MM_TO_MIL))) :=
  calcMaxCopAux_spec t COPLANARITY_FIELDS
    (fun f hf => by
      have := List.all_eq_true.mp h f hf
      simpa using this)

/-- C9 witness: on the specification's end-to-end table (no `aaa`/`bbb`,
`ccc` with `MAX = 0.1`), the amended statement applies and the derived
value is `3.94`. -/
theorem calc_max_coplanarity_spec_witness :
    copWellFormed tblE2E = true
    ∧ calc_max_coplanarity tblE2E = .ok (mkRat 197 50) := by
  refine ⟨by decide, ?_⟩
  rw [calc_max_coplanarity_spec tblE2E (by decide)]
  decide

/-! ### C2 / C10 — band-crop decision and crop lower bound -/

theorem scanYs_mem {h y : Nat} (hy : y ∈ scanYs h) :
    startSearchY h + 1 ≤ y ∧ y + 1 ≤ h := by
  rcases List.mem_map.mp hy with ⟨i, hi, rfl⟩
  rw [List.mem_range] at hi
  omega

theorem scanYs_length (h : Nat) :
    (scanYs h).length = h - 1 - startSearchY h := by
  simp [scanYs]

theorem foldl_bandStep_bounds (img : Img) :
    ∀ (l : List Nat), (∀ y ∈ l, startSearchY img.height + 1 ≤ y ∧ y + 1 ≤ img.height) →
    ∀ acc : Nat × List Nat,
      (∀ b ∈ acc.2, startSearchY img.height < b ∧ b ≤ img.height) →
      ∀ b ∈ (l.foldl (bandStep img) acc).2,
        startSearchY img.height < b ∧ b ≤ img.height
  | [], _, acc, hacc => hacc
  | y :: l, hl, acc, hacc => by
    have hy := hl y (List.mem_cons_self y l)
    have hl' := fun z hz => hl z (List.mem_cons_of_mem y hz)
    intro b hb
    rw [List.foldl_cons] at hb
    refine foldl_bandStep_bounds img l hl' (bandStep img acc y) ?_ b hb
    intro c hc
    unfold bandStep at hc
    split at hc
    · exact hacc c hc
    · split at hc
      · rcases List.mem_append.mp hc with h | h
        · exact hacc c h
        · have : c = y + 1 := List.mem_singleton.mp h
          omega
      · exact hacc c hc

theorem foldl_bandStep_fst (img : Img) :
    ∀ (l : List Nat) (acc : Nat × List Nat),
      (l.foldl (bandStep img) acc).1 ≤ acc.1 + l.length
  | [], acc => by simp
  | y :: l, acc => by
    rw [List.foldl_cons]
    have h := foldl_bandStep_fst img l (bandStep img acc y)
    have : (bandStep img acc y).1 ≤ acc.1 + 1 := by
      unfold bandStep; split
      · simp
      · split <;> simp
    simp only [List.length_cons]
    omega

/-- Every detected band position lies strictly below the top of the search
area and within the image: `start_search_y < b ≤ height`. -/
theorem foundBandPositions_bounds (img : Img) :
    ∀ b ∈ foundBandPositions img,
      startSearchY img.height < b ∧ b ≤ img.height := by
  intro b hb
  unfold foundBandPositions at hb
  have hbounds := foldl_bandStep_bounds img (scanYs img.height)
    (fun y hy => scanYs_mem hy) (0, []) (by simp)
  split at hb
  · rcases List.mem_append.mp hb with h | h
    · exact hbounds b h
    · have hc : b = startSearchY img.height + 1 := List.mem_singleton.mp h
      have hfst := foldl_bandStep_fst img (scanYs img.height) (0, [])
      rw [scanYs_length] at hfst
      rename_i hcons
      simp only [REQUIRED_CONSECUTIVE_LINES] at hcons
      omega
  · exact hbounds b hb

theorem width_take (rows : List (List Nat)) (k : Nat) (hk : 1 ≤ k) :
    (rows.take k).headD [] = rows.headD [] := by
  cases rows with
  | nil => simp
  | cons r t =>
    cases k with
    | zero => omega
    | succ m => simp

/-- C10: the output of the band-crop is always a top-anchored prefix of the
input's rows at full width; and either no band was found (the image is
returned unchanged) or the crop boundary is strictly greater than the
search-area start `int(height * (1 - 0.30))`, so every row of the top 70%
is preserved. -/
theorem crop_company_section_top_anchored (img : Img) :
    (crop_company_section img).rows <+: img.rows
    ∧ (crop_company_section img).width = img.width
    ∧ (crop_company_section img = img ∨
        startSearchY img.height < (crop_company_section img).rows.length) := by
  unfold crop_company_section
  split
  · rename_i h2
    have hmem : (foundBandPositions img).getD 1 0 ∈ foundBandPositions img := by
      have h1 : 1 < (foundBandPositions img).length := by omega
      rw [List.getD_eq_getElem _ _ h1]
      exact List.getElem_mem h1
    have hb := foundBandPositions_bounds img _ hmem
    refine ⟨⟨_, List.take_append_drop _ _⟩, ?_, Or.inr ?_⟩
    · show ((img.rows.take _).headD []).length = (img.rows.headD []).length
      rw [width_take img.rows _ (by omega)]
    · show startSearchY img.height < (img.rows.take _).length
      rw [List.length_take]
      have hble : (foundBandPositions img).getD 1 0 ≤ img.rows.length := hb.2
      have hbgt := hb.1
      omega
  · split
    · rename_i h2 h1
      have hmem : (foundBandPositions img).getD 0 0 ∈ foundBandPositions img := by
        have h0 : 0 < (foundBandPositions img).length := by omega
        rw [List.getD_eq_getElem _ _ h0]
        exact List.getElem_mem h0
      have hb := foundBandPositions_bounds img _ hmem
      refine ⟨⟨_, List.take_append_drop _ _⟩, ?_, Or.inr ?_⟩
      · show ((img.rows.take _).headD []).length = (img.rows.headD []).length
        rw [width_take img.rows _ (by omega)]
      · show startSearchY img.height < (img.rows.take _).length
        rw [List.length_take]
        have hble : (foundBandPositions img).getD 0 0 ≤ img.rows.length := hb.2
        have hbgt := hb.1
        omega
    · exact ⟨⟨[], List.append_nil _⟩, rfl, Or.inl rfl⟩

theorem isRowWhite_false_of_allBlack (img : Img) (hb : img.allBlack = true)
    (y : Nat) : isRowWhite img y = false := by
  have hcount : ((img.rows.getD y []).countP
      (fun px => decide (BRIGHTNESS_THRESHOLD < px))) = 0 := by
    rw [List.countP_eq_zero]
    intro a ha
    by_cases hy : y < img.rows.length
    · rw [List.getD_eq_getElem _ _ hy] at ha
      have hrow := List.all_eq_true.mp hb _ (List.getElem_mem hy)
      have := List.all_eq_true.mp hrow a ha
      simp only [decide_eq_true_eq] at this
      simp [this, BRIGHTNESS_THRESHOLD]
    · rw [List.getD_eq_default _ _ (by omega)] at ha
      simp at ha
  unfold isRowWhite
  rw [hcount]
  simp

theorem isRowWhite_true_of_allWhite (img : Img) (hw : img.allWhite = true)
    (hrect : img.rectangular = true) (hwidth : 0 < img.width)
    (y : Nat) (hy : y < img.height) : isRowWhite img y = true := by
  have hyl : y < img.rows.length := hy
  have hrowmem := List.getElem_mem hyl
  have hrow := List.all_eq_true.mp hw _ hrowmem
  have hlen := List.all_eq_true.mp hrect _ hrowmem
  simp only [decide_eq_true_eq] at hlen
  have hcount : ((img.rows.getD y []).countP
      (fun px => decide (BRIGHTNESS_THRESHOLD < px))) = img.width := by
    rw [List.getD_eq_getElem _ _ hyl, ← hlen]
    rw [List.countP_eq_length]
    intro a ha
    have := List.all_eq_true.mp hrow a ha
    simp only [decide_eq_true_eq] at this
    simp [this, BRIGHTNESS_THRESHOLD]
  unfold isRowWhite
  rw [hcount]
  simp only [decide_eq_true_eq]
  omega

theorem foldl_bandStep_allFalse (img : Img) :
    ∀ (l : List Nat), (∀ y ∈ l, isRowWhite img y = false) →
    ∀ acc : List Nat, l.foldl (bandStep img) (0, acc) = (0, acc)
  | [], _, acc => rfl
  | y :: l, hl, acc => by
    rw [List.foldl_cons]
    have hy := hl y (List.mem_cons_self y l)
    have hstep : bandStep img (0, acc) y = (0, acc) := by
      unfold bandStep
      rw [hy]
      simp [REQUIRED_CONSECUTIVE_LINES]
    rw [hstep]
    exact foldl_bandStep_allFalse img l
      (fun z hz => hl z (List.mem_cons_of_mem y hz)) acc

theorem foldl_bandStep_allTrue (img : Img) :
    ∀ (l : List Nat), (∀ y ∈ l, isRowWhite img y = true) →
    ∀ acc : Nat × List Nat,
      l.foldl (bandStep img) acc = (acc.1 + l.length, acc.2)
  | [], _, acc => by simp
  | y :: l, hl, acc => by
    rw [List.foldl_cons]
    have hy := hl y (List.mem_cons_self y l)
    have hstep : bandStep img acc y = (acc.1 + 1, acc.2) := by
      unfold bandStep; rw [hy]; simp
    rw [hstep, foldl_bandStep_allTrue img l
      (fun z hz => hl z (List.mem_cons_of_mem y hz)) _]
    simp only [List.length_cons]
    congr 1
    omega

theorem foundBandPositions_allBlack (img : Img) (hb : img.allBlack = true) :
    foundBandPositions img = [] := by
  unfold foundBandPositions
  rw [foldl_bandStep_allFalse img _
    (fun y _ => isRowWhite_false_of_allBlack img hb y) []]
  simp [REQUIRED_CONSECUTIVE_LINES]

/-- C2: the band-crop decision.  With `bands` the detected band positions
(listed bottom-up): with two or more bands the image is cropped to the rows
`[0, crop_y)` at the *second* band from the bottom; with exactly one band,
at that band; with none the image is returned unmodified.  An all-black
image is returned unmodified, and an all-white (rectangular, positive
width) image either yields the single full-search-area band at
`start_search_y + 1` (when the scanned area has at least the 3 required
rows) or is returned unmodified — neither edge case faults. -/
theorem crop_company_section_spec (img : Img) :
    (2 ≤ (foundBandPositions img).length →
      crop_company_section img = ⟨img.rows.take ((foundBandPositions img).getD 1 0)⟩)
    ∧ ((foundBandPositions img).length = 1 →
      crop_company_section img = ⟨img.rows.take ((foundBandPositions img).getD 0 0)⟩)
    ∧ ((foundBandPositions img).length = 0 → crop_company_section img = img)
    ∧ (img.allBlack = true → crop_company_section img = img)
    ∧ (img.allWhite = true → img.rectangular = true → 0 < img.width →
        (3 ≤ (scanYs img.height).length ∧
          crop_company_section img =
            ⟨img.rows.take (startSearchY img.height + 1)⟩)
        ∨ ((scanYs img.height).length < 3 ∧ crop_company_section img = img)) := by
  refine ⟨fun h2 => ?_, fun h1 => ?_, fun h0 => ?_, fun hb => ?_, fun hw hrect hwid => ?_⟩
  · unfold crop_company_section
    rw [if_pos h2]
  · unfold crop_company_section
    rw [if_neg (by omega), if_pos h1]
  · unfold crop_company_section
    rw [if_neg (by omega), if_neg (by omega)]
  · have hbands := foundBandPositions_allBlack img hb
    unfold crop_company_section
    rw [hbands]
    simp
  · have hwhite : ∀ y ∈ scanYs img.height, isRowWhite img y = true := by
      intro y hy
      exact isRowWhite_true_of_allWhite img hw hrect hwid y (by
        have := scanYs_mem hy; omega)
    have hfold := foldl_bandStep_allTrue img (scanYs img.height) hwhite (0, [])
    by_cases h3 : 3 ≤ (scanYs img.height).length
    · left
      refine ⟨h3, ?_⟩
      have hbands : foundBandPositions img = [startSearchY img.height + 1] := by
        unfold foundBandPositions
        rw [hfold]
        simp only [REQUIRED_CONSECUTIVE_LINES]
        rw [if_pos (by simpa using h3)]
        simp
      unfold crop_company_section
      rw [hbands]
      simp
    · right
      refine ⟨by omega, ?_⟩
      have hbands : foundBandPositions img = [] := by
        unfold foundBandPositions
        rw [hfold]
        simp only [REQUIRED_CONSECUTIVE_LINES]
        rw [if_neg (by simpa using h3)]
      unfold crop_company_section
      rw [hbands]
      simp

/-- C2 witness: on the synthetic 30×5 two-band image the crop keeps rows
`[0, 23)` — the second band from the bottom — and on the 20×1 all-white
image the single boundary band at `start_search_y + 1 = 15` is used. -/
theorem crop_company_section_spec_witness :
    (2 ≤ (foundBandPositions imgTwoBands).length
      ∧ crop_company_section imgTwoBands = ⟨imgTwoBands.rows.take 23⟩)
    ∧ (imgAllWhite.allWhite = true ∧ imgAllWhite.rectangular = true
      ∧ 0 < imgAllWhite.width
      ∧ crop_company_section imgAllWhite = ⟨imgAllWhite.rows.take 15⟩) := by
  constructor
  · have h := (crop_company_section_spec imgTwoBands).1 (by decide)
    refine ⟨by decide, ?_⟩
    rw [h]
    decide
  · have h := (crop_company_section_spec imgAllWhite).2.2.2.2
      (by decide) (by decide) (by decide)
    rcases h with ⟨_, heq⟩ | ⟨hlt, _⟩
    · refine ⟨by decide, by decide, by decide, ?_⟩
      rw [heq]
      decide
    · exact absurd hlt (by decide)

/-! ### C3 — similarity matcher contract -/

theorem mem_insDesc (k : Cand → ℚ) (x a : Cand) :
    ∀ l : List Cand, (a ∈ insDesc k x l ↔ a = x ∨ a ∈ l)
  | [] => by simp [insDesc]
  | y :: ys => by
    unfold insDesc
    split
    · simp
    · rw [List.mem_cons, mem_insDesc k x a ys, List.mem_cons]
      tauto

theorem sorted_insDesc (k : Cand → ℚ) (x : Cand) :
    ∀ l : List Cand, l.Sorted (fun a b => k b ≤ k a) →
      (insDesc k x l).Sorted (fun a b => k b ≤ k a)
  | [], _ => by simp [insDesc]
  | y :: ys, h => by
    rw [List.sorted_cons] at h
    unfold insDesc
    split
    · rename_i hlt
      rw [List.sorted_cons]
      refine ⟨?_, List.sorted_cons.mpr h⟩
      intro b hb
      rcases List.mem_cons.mp hb with rfl | hb
      · exact le_of_lt hlt
      · exact le_trans (h.1 b hb) (le_of_lt hlt)
    · rename_i hge
      rw [List.sorted_cons]
      refine ⟨?_, sorted_insDesc k x ys h.2⟩
      intro b hb
      rcases (mem_insDesc k x b ys).mp hb with rfl | hb
      · exact le_of_not_lt hge
      · exact h.1 b hb

theorem mem_foldl_insDesc (k : Cand → ℚ) (a : Cand) :
    ∀ (l acc : List Cand),
      (a ∈ l.foldl (fun acc x => insDesc k x acc) acc ↔ a ∈ acc ∨ a ∈ l)
  | [], acc => by simp
  | x :: xs, acc => by
    rw [List.foldl_cons, mem_foldl_insDesc k a xs (insDesc k x acc),
      mem_insDesc k x a acc, List.mem_cons]
    tauto

theorem mem_sortDesc (k : Cand → ℚ) (a : Cand) (l : List Cand) :
    a ∈ sortDesc k l ↔ a ∈ l := by
  rw [sortDesc, mem_foldl_insDesc]
  simp

theorem sorted_foldl_insDesc (k : Cand → ℚ) :
    ∀ (l acc : List Cand), acc.Sorted (fun a b => k b ≤ k a) →
      (l.foldl (fun acc x => insDesc k x acc) acc).Sorted (fun a b => k b ≤ k a)
  | [], acc, h => h
  | x :: xs, acc, h => by
    rw [List.foldl_cons]
    exact sorted_foldl_insDesc k xs _ (sorted_insDesc k x acc h)

theorem sorted_sortDesc (k : Cand → ℚ) (l : List Cand) :
    (sortDesc k l).Sorted (fun a b => k b ≤ k a) :=
  sorted_foldl_insDesc k l [] (by simp)

/-- The head of a stable descending sort dominates every element. -/
theorem sortDesc_head_max (k : Cand → ℚ) (l : List Cand) (b : Cand)
    (tail : List Cand) (hs : sortDesc k l = b :: tail) :
    ∀ a ∈ l, k a ≤ k b := by
  intro a ha
  have hmem : a ∈ b :: tail := by
    rw [← hs, mem_sortDesc]; exact ha
  rcases List.mem_cons.mp hmem with rfl | hmem
  · exact le_refl _
  · have hsorted := sorted_sortDesc k l
    rw [hs] at hsorted
    exact List.rel_of_sorted_cons hsorted a hmem

/-- C3: the similarity-matcher contract.  On a non-empty catalog,
`find_best_match` returns a catalog candidate together with its score, the
score clears the threshold 85 (a score exactly 85 is accepted), and either
it is the maximal raw (alphanumeric-cleaned) score, or every raw score is
strictly below the threshold (one point below 85 is rejected on that pass)
and it is the maximal parenthesis-stripped score; it returns `none`, not an
error, exactly when the best of both scores is below the threshold. -/
theorem find_best_match_contract (target : String) (cache : Cache)
    (hne : cache ≠ []) :
    match find_best_match target cache with
    | some (i, r, s) =>
        (i, r) ∈ cache ∧ SIMILARITY_THRESHOLD ≤ s ∧
        ((s = similarity_score (clean_id i) target ∧
          ∀ p ∈ cache, similarity_score (clean_id p.1) target ≤ s) ∨
         ((∀ p ∈ cache,
            similarity_score (clean_id p.1) target < SIMILARITY_THRESHOLD) ∧
          s = similarity_score_stripped (clean_id i) target ∧
          ∀ p ∈ cache, similarity_score_stripped (clean_id p.1) target ≤ s))
    | none =>
        ∀ p ∈ cache,
          similarity_score (clean_id p.1) target < SIMILARITY_THRESHOLD ∧
          similarity_score_stripped (clean_id p.1) target < SIMILARITY_THRESHOLD
    := by
  have hie : cache.isEmpty = false := by
    cases cache with
    | nil => exact absurd rfl hne
    | cons p l => rfl
  have htne : cache.map (mkCand target) ≠ [] := by
    intro h
    exact hne (List.map_eq_nil_iff.mp h)
  obtain ⟨b, tail, hs1⟩ :
      ∃ b tail, sortDesc (fun c => c.raw) (cache.map (mkCand target)) = b :: tail := by
    cases hs : sortDesc (fun c => c.raw) (cache.map (mkCand target)) with
    | nil =>
      exfalso
      cases hc : cache.map (mkCand target) with
      | nil => exact htne hc
      | cons c cs =>
        have : c ∈ sortDesc (fun c => c.raw) (cache.map (mkCand target)) := by
          rw [mem_sortDesc, hc]; exact List.mem_cons_self c cs
        rw [hs] at this
        exact absurd this (List.not_mem_nil c)
    | cons b tail => exact ⟨b, tail, rfl⟩
  have hmax1 : ∀ p ∈ cache, similarity_score (clean_id p.1) target ≤ b.raw := by
    intro p hp
    have := sortDesc_head_max _ _ _ _ hs1 (mkCand target p)
      (List.mem_map_of_mem (mkCand target) hp)
    simpa [mkCand] using this
  have hbmem : b ∈ cache.map (mkCand target) := by
    have : b ∈ b :: tail := List.mem_cons_self b tail
    rw [← hs1, mem_sortDesc] at this
    exact this
  obtain ⟨pb, hpb, hpbeq⟩ := List.mem_map.mp hbmem
  unfold find_best_match
  rw [hie, hs1]
  simp only [Bool.false_eq_true, if_false]
  by_cases hth1 : SIMILARITY_THRESHOLD ≤ b.raw
  · rw [if_pos hth1]
    refine ⟨?_, hth1, Or.inl ⟨?_, hmax1⟩⟩
    · rw [← hpbeq]; exact hpb
    · rw [← hpbeq]; rfl
  · rw [if_neg hth1]
    have hallraw : ∀ p ∈ cache,
        similarity_score (clean_id p.1) target < SIMILARITY_THRESHOLD :=
      fun p hp => lt_of_le_of_lt (hmax1 p hp) (lt_of_not_le hth1)
    obtain ⟨b₂, tail₂, hs2⟩ :
        ∃ b₂ tail₂, sortDesc (fun c => c.stripped) (b :: tail) = b₂ :: tail₂ := by
      cases hs : sortDesc (fun c => c.stripped) (b :: tail) with
      | nil =>
        exfalso
        have : b ∈ sortDesc (fun c => c.stripped) (b :: tail) := by
          rw [mem_sortDesc]; exact List.mem_cons_self b tail
        rw [hs] at this
        exact absurd this (List.not_mem_nil b)
      | cons b₂ tail₂ => exact ⟨b₂, tail₂, rfl⟩
    have hmemiff : ∀ c : Cand, c ∈ b :: tail ↔ c ∈ cache.map (mkCand target) :=
      fun c => by rw [← hs1, mem_sortDesc]
    have hmax2 : ∀ p ∈ cache,
        similarity_score_stripped (clean_id p.1) target ≤ b₂.stripped := by
      intro p hp
      have hmem : mkCand target p ∈ b :: tail :=
        (hmemiff _).mpr (List.mem_map_of_mem (mkCand target) hp)
      have := sortDesc_head_max _ _ _ _ hs2 (mkCand target p) hmem
      simpa [mkCand] using this
    have hb2mem : b₂ ∈ cache.map (mkCand target) := by
      have : b₂ ∈ b₂ :: tail₂ := List.mem_cons_self b₂ tail₂
      rw [← hs2, mem_sortDesc] at this
      exact (hmemiff b₂).mp this
    obtain ⟨pb₂, hpb₂, hpb₂eq⟩ := List.mem_map.mp hb2mem
    rw [hs2]
    dsimp only
    by_cases hth2 : SIMILARITY_THRESHOLD ≤ b₂.stripped
    · rw [if_pos hth2]
      refine ⟨?_, hth2, Or.inr ⟨hallraw, ?_, hmax2⟩⟩
      · rw [← hpb₂eq]; exact hpb₂
      · rw [← hpb₂eq]; rfl
    · rw [if_neg hth2]
      intro p hp
      exact ⟨hallraw p hp,
        lt_of_le_of_lt (hmax2 p hp) (lt_of_not_le hth2)⟩

/-- C3 witness: a catalog entry whose cleaned identifier scores *exactly*
85 against the target is accepted on the raw pass, and the returned score
is that maximal raw score. -/
theorem find_best_match_contract_witness :
    (find_best_match targetW cacheW
        = some ("AB1234(CCCCCCCCCCCCCCCCC)", recW, 85))
    ∧ (match find_best_match targetW cacheW with
      | some (i, r, s) =>
          (i, r) ∈ cacheW ∧ SIMILARITY_THRESHOLD ≤ s ∧
          ((s = similarity_score (clean_id i) targetW ∧
            ∀ p ∈ cacheW, similarity_score (clean_id p.1) targetW ≤ s) ∨
           ((∀ p ∈ cacheW,
              similarity_score (clean_id p.1) targetW < SIMILARITY_THRESHOLD) ∧
            s = similarity_score_stripped (clean_id i) targetW ∧
            ∀ p ∈ cacheW,
              similarity_score_stripped (clean_id p.1) targetW ≤ s))
      | none =>
          ∀ p ∈ cacheW,
            similarity_score (clean_id p.1) targetW < SIMILARITY_THRESHOLD ∧
            similarity_score_stripped (clean_id p.1) targetW
              < SIMILARITY_THRESHOLD) :=
  ⟨by decide, find_best_match_contract targetW cacheW (by decide)⟩

/-! ### C1 / C4 / C7 — ingestion loop -/

/-- Upserting a fresh key is an append. -/
theorem dictUpsert_fresh (k : String) (v : Record) :
    ∀ c : Cache, k ∉ cacheKeys c → dictUpsert k v c = c ++ [(k, v)]
  | [], _ => rfl
  | (k', v') :: rest, h => by
    have hk : k' ≠ k := by
      intro hkk
      exact h (by simp [cacheKeys, hkk])
    unfold dictUpsert
    rw [if_neg hk, dictUpsert_fresh k v rest (fun hm => h (by simp [cacheKeys] at hm ⊢; exact Or.inr hm))]
    simp

theorem cachedPaths_append (c : Cache) (e : String × Record) :
    cachedPaths (c ++ [e]) = cachedPaths c ++ [e.2.image_path] := by
  simp [cachedPaths]

theorem cacheKeys_append (c : Cache) (e : String × Record) :
    cacheKeys (c ++ [e]) = cacheKeys c ++ [e.1] := by
  simp [cacheKeys]

/-- Files that are not image files, are directories, or whose path is in
the `cached_paths` snapshot are skipped without any state change. -/
theorem ingestStep_skip (env : IngestEnv) (folder pdir : String)
    (cp : List String) (st : IngestState) (f : String)
    (h : ¬ isImageFile f = true ∨ env.isDir (joinPath folder f) = true ∨
      joinPath folder f ∈ cp) :
    ingestStep env folder pdir cp st f = .ok st := by
  unfold ingestStep
  rw [if_pos h]

/-- What one successful loop iteration can do to the state, when any
identifier the environment would parse at this file is fresh for the
current cache: quarantine lists only grow, recorded source paths only
grow, new cache keys come only from this file's parsed identifier, and an
eligible file ends up either skipped (path in the snapshot), quarantined,
or committed with its path recorded. -/
theorem ingestStep_ok_facts (env : IngestEnv) (folder pdir : String)
    (cp₀ : List String) (st : IngestState) (g : String) (st' : IngestState)
    (hfresh : ∀ id tbl, env.outcome (joinPath folder g) = .parsed id tbl →
      id ∉ cacheKeys st.cache)
    (h : ingestStep env folder pdir cp₀ st g = .ok st') :
    (∀ p ∈ st.toMove, p ∈ st'.toMove)
    ∧ (∀ p ∈ cachedPaths st.cache, p ∈ cachedPaths st'.cache)
    ∧ (∀ k ∈ cacheKeys st'.cache, k ∈ cacheKeys st.cache ∨
        parsedId env (joinPath folder g) = some k)
    ∧ (isImageFile g = true → env.isDir (joinPath folder g) = false →
        joinPath folder g ∈ cp₀ ∨ joinPath folder g ∈ st'.toMove ∨
        joinPath folder g ∈ cachedPaths st'.cache) := by
  unfold ingestStep at h
  dsimp only at h
  split at h
  · rename_i hcond
    injection h with h
    subst h
    refine ⟨fun p hp => hp, fun p hp => hp, fun k hk => Or.inl hk, ?_⟩
    intro himg hdir
    rcases hcond with hc | hc | hc
    · exact absurd himg hc
    · rw [hdir] at hc; exact absurd hc (by simp)
    · exact Or.inl hc
  · rename_i hcond
    cases hout : env.outcome (joinPath folder g) <;> rw [hout] at h <;>
      dsimp only at h
    case openErr =>
      cases hlp : st.lastProcessed <;> rw [hlp] at h
      · exact absurd h (by simp)
      · injection h with h
        subst h
        refine ⟨fun p hp => by simp [hp], fun p hp => hp,
          fun k hk => Or.inl hk, fun _ _ => Or.inr (Or.inl (by simp))⟩
    case stageErr =>
      injection h with h
      subst h
      refine ⟨fun p hp => by simp [hp], fun p hp => hp,
        fun k hk => Or.inl hk, fun _ _ => Or.inr (Or.inl (by simp))⟩
    case modelErr =>
      injection h with h
      subst h
      refine ⟨fun p hp => by simp [hp], fun p hp => hp,
        fun k hk => Or.inl hk, fun _ _ => Or.inr (Or.inl (by simp))⟩
    case badJson =>
      injection h with h
      subst h
      refine ⟨fun p hp => by simp [hp], fun p hp => hp,
        fun k hk => Or.inl hk, fun _ _ => Or.inr (Or.inl (by simp))⟩
    case parsed id tbl =>
      have hid : id ∉ cacheKeys st.cache := hfresh id tbl hout
      have hup := dictUpsert_fresh id ⟨id, tbl, joinPath folder g⟩ st.cache hid
      by_cases hemp : tbl.isEmpty = true
      · rw [if_pos hemp, if_neg hid] at h
        injection h with h
        subst h
        refine ⟨fun p hp => by simp [hp], ?_, ?_, fun _ _ => Or.inr (Or.inl (by simp))⟩
        · intro p hp
          simp only [hup, cachedPaths_append]
          simp [hp]
        · intro k hk
          simp only [hup, cacheKeys_append] at hk
          rcases List.mem_append.mp hk with hk | hk
          · exact Or.inl hk
          · have : k = id := by simpa using hk
            subst this
            exact Or.inr (by unfold parsedId; rw [hout])
      · rw [if_neg hemp] at h
        injection h with h
        subst h
        refine ⟨fun p hp => hp, ?_, ?_, fun _ _ => Or.inr (Or.inr ?_)⟩
        · intro p hp
          simp only [hup, cachedPaths_append]
          simp [hp]
        · intro k hk
          simp only [hup, cacheKeys_append] at hk
          rcases List.mem_append.mp hk with hk | hk
          · exact Or.inl hk
          · have : k = id := by simpa using hk
            subst this
            exact Or.inr (by unfold parsedId; rw [hout])
        · simp only [hup, cachedPaths_append]
          simp

/-- The run invariant: when the listed files parse to pairwise-distinct
identifiers that are fresh for `keys₀` (the keys of the starting catalog),
a successful pass leaves every eligible listed file either quarantined or
with its source path recorded in the final catalog, and quarantine lists
and recorded paths only grow. -/
theorem ingest_cover (env : IngestEnv) (folder pdir : String)
    (cp₀ keys₀ : List String) :
    ∀ (rem : List String) (st st₁ : IngestState),
      rem.Pairwise (idsDisjoint env folder) →
      (∀ f ∈ rem, ∀ k ∈ keys₀, parsedId env (joinPath folder f) ≠ some k) →
      (∀ k ∈ cacheKeys st.cache, k ∈ keys₀ ∨
        ∀ f ∈ rem, parsedId env (joinPath folder f) ≠ some k) →
      (∀ p ∈ cp₀, p ∈ cachedPaths st.cache) →
      ingestFold env folder pdir cp₀ st rem = .ok st₁ →
      (∀ f ∈ rem, isImageFile f = true → env.isDir (joinPath folder f) = false →
        joinPath folder f ∈ st₁.toMove ∨ joinPath folder f ∈ cachedPaths st₁.cache)
      ∧ (∀ p ∈ st.toMove, p ∈ st₁.toMove)
      ∧ (∀ p ∈ cachedPaths st.cache, p ∈ cachedPaths st₁.cache)
  | [], st, st₁, _, _, _, _, hfold => by
    have hst : st = st₁ := by
      injection hfold
    subst hst
    exact ⟨fun f hf => absurd hf (List.not_mem_nil f), fun p hp => hp, fun p hp => hp⟩
  | g :: rem, st, st₁, hpair, hfreshk, hinv, hcp, hfold => by
    cases hstep : ingestStep env folder pdir cp₀ st g with
    | error e =>
      unfold ingestFold at hfold
      rw [hstep] at hfold
      exact absurd hfold (by simp)
    | ok st' =>
      unfold ingestFold at hfold
      rw [hstep] at hfold
      dsimp only at hfold
      rw [List.pairwise_cons] at hpair
      have hpid : ∀ f ∈ rem, ∀ i, parsedId env (joinPath folder g) = some i →
          parsedId env (joinPath folder f) ≠ some i := by
        intro f hf i hgi hfi
        rcases hpair.1 f hf with hnone | hne
        · rw [hnone] at hgi; exact Option.noConfusion hgi
        · exact hne (hgi.trans hfi.symm)
      have hfreshst : ∀ id tbl, env.outcome (joinPath folder g) = .parsed id tbl →
          id ∉ cacheKeys st.cache := by
        intro id tbl hout hmem
        have hgid : parsedId env (joinPath folder g) = some id := by
          unfold parsedId; rw [hout]
        rcases hinv id hmem with hk | hall
        · exact hfreshk g (List.mem_cons_self g rem) id hk hgid
        · exact hall g (List.mem_cons_self g rem) hgid
      obtain ⟨hmove, hpaths, hkeys, hcov⟩ :=
        ingestStep_ok_facts env folder pdir cp₀ st g st' hfreshst hstep
      have hinv' : ∀ k ∈ cacheKeys st'.cache, k ∈ keys₀ ∨
          ∀ f ∈ rem, parsedId env (joinPath folder f) ≠ some k := by
        intro k hk
        rcases hkeys k hk with hold | hgk
        · rcases hinv k hold with h | h
          · exact Or.inl h
          · exact Or.inr (fun f hf => h f (List.mem_cons_of_mem g hf))
        · exact Or.inr (fun f hf => hpid f hf k hgk)
      have ih := ingest_cover env folder pdir cp₀ keys₀ rem st' st₁ hpair.2
        (fun f hf => hfreshk f (List.mem_cons_of_mem g hf)) hinv'
        (fun p hp => hpaths p (hcp p hp)) hfold
      refine ⟨?_, fun p hp => ih.2.1 p (hmove p hp),
        fun p hp => ih.2.2 p (hpaths p hp)⟩
      intro f hf himg hdir
      rcases List.mem_cons.mp hf with rfl | hf
      · rcases hcov himg hdir with hc | hc | hc
        · exact Or.inr (ih.2.2 _ (hpaths _ (hcp _ hc)))
        · exact Or.inl (ih.2.1 _ hc)
        · exact Or.inr (ih.2.2 _ hc)
      · exact ih.1 f hf himg hdir

/-- A pass over a listing in which every eligible image's path is already
recorded leaves the state untouched: nothing is moved, nothing is removed,
nothing is sent to the model, and the catalog is unchanged. -/
theorem processNewImages_all_cached (env : IngestEnv) (folder pdir : String)
    (cache : Cache) :
    ∀ listing : List String,
      (∀ f ∈ listing, isImageFile f = true →
        env.isDir (joinPath folder f) = false →
        joinPath folder f ∈ cachedPaths cache) →
      processNewImages env folder pdir listing cache = .ok (initState cache) := by
  have aux : ∀ (l : List String),
      (∀ f ∈ l, isImageFile f = true → env.isDir (joinPath folder f) = false →
        joinPath folder f ∈ cachedPaths cache) →
      ∀ st : IngestState,
        ingestFold env folder pdir (cachedPaths cache) st l = .ok st := by
    intro l
    induction l with
    | nil => intro _ st; rfl
    | cons g rem ih =>
      intro hl st
      have hskip : ingestStep env folder pdir (cachedPaths cache) st g = .ok st := by
        apply ingestStep_skip
        by_cases himg : isImageFile g = true
        · by_cases hdir : env.isDir (joinPath folder g) = true
          · exact Or.inr (Or.inl hdir)
          · exact Or.inr (Or.inr
              (hl g (List.mem_cons_self g rem) himg (by
                cases hd : env.isDir (joinPath folder g)
                · rfl
                · exact absurd hd hdir)))
        · exact Or.inl himg
      unfold ingestFold
      rw [hskip]
      exact ih (fun f hf => hl f (List.mem_cons_of_mem g hf)) st
  intro listing hlisting
  exact aux listing hlisting (initState cache)

/-- C1 (amended): re-running the Ingestion Loop over the directory left by
a successful first run — with the quarantined files moved away — produces
the identical catalog, moves nothing, and never invokes the extraction
capability, *provided* the listed files parse to pairwise-distinct
identifiers that do not collide with identifiers already in the starting
catalog.  (The counterexample shows the claim fails without that proviso:
two images parsing to the same identifier overwrite each other's recorded
`image_path`.) -/
theorem ingest_idempotent_rerun (env : IngestEnv) (folder pdir : String)
    (listing : List String) (cache₀ : Cache) (st₁ : IngestState)
    (hpair : listing.Pairwise (idsDisjoint env folder))
    (hfresh : ∀ f ∈ listing, ∀ k ∈ cacheKeys cache₀,
      parsedId env (joinPath folder f) ≠ some k)
    (hrun1 : processNewImages env folder pdir listing cache₀ = .ok st₁) :
    processNewImages env folder pdir
      (listing.filter (fun f => joinPath folder f ∉ st₁.toMove))
      st₁.cache = .ok (initState st₁.cache) := by
  have hcover := ingest_cover env folder pdir (cachedPaths cache₀)
    (cacheKeys cache₀) listing (initState cache₀) st₁ hpair hfresh
    (fun k hk => Or.inl hk) (fun p hp => hp) hrun1
  apply processNewImages_all_cached
  intro f hf himg hdir
  have hmemf := List.mem_filter.mp hf
  have hnotmove : joinPath folder f ∉ st₁.toMove := by
    have := hmemf.2
    simpa using this
  rcases hcover.1 f hmemf.1 himg hdir with hm | hm
  · exact absurd hm hnotmove
  · exact hm

/-- C1 witness: with two images parsing to the distinct fresh identifiers
`"X"` and `"Y"`, the second run over the unchanged directory returns the
first run's catalog untouched, with no moves and zero extraction calls. -/
theorem ingest_idempotent_rerun_witness :
    processNewImages envTwo "imgs" "proc"
      (["a.jpg", "b.jpg"].filter (fun f => joinPath "imgs" f ∉
        (⟨[("X", ⟨"X", [("e", .num 1)], "imgs/a.jpg"⟩),
           ("Y", ⟨"Y", [("e", .num 2)], "imgs/b.jpg"⟩)],
          [], [], some "proc/b.jpg",
          ["imgs/a.jpg", "imgs/b.jpg"]⟩ : IngestState).toMove))
      (⟨[("X", ⟨"X", [("e", .num 1)], "imgs/a.jpg"⟩),
         ("Y", ⟨"Y", [("e", .num 2)], "imgs/b.jpg"⟩)],
        [], [], some "proc/b.jpg",
        ["imgs/a.jpg", "imgs/b.jpg"]⟩ : IngestState).cache
      = .ok (initState (⟨[("X", ⟨"X", [("e", .num 1)], "imgs/a.jpg"⟩),
         ("Y", ⟨"Y", [("e", .num 2)], "imgs/b.jpg"⟩)],
        [], [], some "proc/b.jpg",
        ["imgs/a.jpg", "imgs/b.jpg"]⟩ : IngestState).cache) :=
  ingest_idempotent_rerun envTwo "imgs" "proc" ["a.jpg", "b.jpg"] []
    _ (by decide) (by decide) (by decide)

/-- C1 (counterexample): two source images that parse to the *same*
identifier `"X"`.  The first run commits both (the second commit
overwrites the recorded path) and moves nothing, so the directory is
unchanged; the second run re-processes `a.jpg` — invoking the extraction
capability again — and produces a catalog different from the one the first
run left. -/
theorem ingest_not_idempotent_counterexample :
    processNewImages envDup "imgs" "proc" ["a.jpg", "b.jpg"] [] =
      .ok ⟨[("X", ⟨"X", [("e", .num 2)], "imgs/b.jpg"⟩)],
        [], [], some "proc/b.jpg", ["imgs/a.jpg", "imgs/b.jpg"]⟩
    ∧ processNewImages envDup "imgs" "proc" ["a.jpg", "b.jpg"]
        [("X", ⟨"X", [("e", .num 2)], "imgs/b.jpg"⟩)] =
      .ok ⟨[("X", ⟨"X", [("e", .num 1)], "imgs/a.jpg"⟩)],
        [], [], some "proc/a.jpg", ["imgs/a.jpg"]⟩
    ∧ ([("X", (⟨"X", [("e", .num 1)], "imgs/a.jpg"⟩ : Record))] ≠
        [("X", (⟨"X", [("e", .num 2)], "imgs/b.jpg"⟩ : Record))]) := by
  decide

/-- C4 (amended): the fate of a parsed response at an eligible,
not-yet-cached image.  An empty table always quarantines the image, but a
record is still committed (source path attached) unless the parsed
identifier is already in the catalog; a non-empty table always commits
without quarantining. -/
theorem ingest_step_parsed (env : IngestEnv) (folder pdir : String)
    (cp : List String) (st : IngestState) (f id : String)
    (tbl : List (String × TableEntry))
    (himg : isImageFile f = true)
    (hdir : env.isDir (joinPath folder f) = false)
    (hcp : joinPath folder f ∉ cp)
    (hout : env.outcome (joinPath folder f) = .parsed id tbl) :
    ingestStep env folder pdir cp st f = .ok
      { cache :=
          if tbl.isEmpty = true ∧ id ∈ cacheKeys st.cache then st.cache
          else dictUpsert id ⟨id, tbl, joinPath folder f⟩ st.cache,
        toMove :=
          if tbl.isEmpty = true then st.toMove ++ [joinPath folder f]
          else st.toMove,
        toRemove :=
          if tbl.isEmpty = true then st.toRemove ++ [joinPath pdir f]
          else st.toRemove,
        lastProcessed := some (joinPath pdir f),
        calls := st.calls ++ [joinPath folder f] } := by
  unfold ingestStep
  dsimp only
  rw [if_neg (by
    push_neg
    exact ⟨himg, by simp [hdir], hcp⟩)]
  rw [hout]
  dsimp only
  by_cases hemp : tbl.isEmpty = true
  · rw [if_pos hemp]
    by_cases hid : id ∈ cacheKeys st.cache
    · rw [if_pos hid, if_pos ⟨hemp, hid⟩, if_pos hemp, if_pos hemp]
    · rw [if_neg hid, if_neg (fun hc => hid hc.2), if_pos hemp, if_pos hemp]
  · rw [if_neg hemp, if_neg (fun hc => hemp hc.1), if_neg hemp, if_neg hemp]

/-- C4 witness: the amended statement applied to a concrete empty-table
response with a fresh identifier — the image is quarantined *and* the
record is committed. -/
theorem ingest_step_parsed_witness :
    ingestStep envEmptyTable "imgs" "proc" [] (initState []) "a.jpg" = .ok
      ⟨[("X", ⟨"X", [], "imgs/a.jpg"⟩)], ["imgs/a.jpg"], ["proc/a.jpg"],
        some "proc/a.jpg", ["imgs/a.jpg"]⟩ :=
  (ingest_step_parsed envEmptyTable "imgs" "proc" [] (initState []) "a.jpg"
    "X" [] (by decide) (by decide) (by decide) (by decide)).trans (by decide)

/-- C4 (counterexample): an extraction response that parses with an empty
table and an identifier not yet in the catalog.  The loop quarantines the
image but *also* commits a record for it (`sourcePath` attached), so a
record is committed although the parsed table is empty. -/
theorem empty_table_commit_counterexample :
    processNewImages envEmptyTable "imgs" "proc" ["a.jpg"] [] =
      .ok ⟨[("X", ⟨"X", [], "imgs/a.jpg"⟩)], ["imgs/a.jpg"], ["proc/a.jpg"],
        some "proc/a.jpg", ["imgs/a.jpg"]⟩
    ∧ (⟨"X", [], "imgs/a.jpg"⟩ : Record).table = [] := by
  decide

/-- C7: the failure-isolation claim meets the unbound-local bug.  When the
*first* processed image raises before `processed_path` is assigned (for
example `Image.open` fails on a corrupt file), the `except` handler itself
raises `UnboundLocalError`, so `process_new_images` aborts: the remaining
image `b.jpg` (which would parse fine) is never processed, no quarantine
move is performed, and nothing is cataloged. -/
theorem ingest_abort_on_first_open_error :
    processNewImages envBug "imgs" "proc" ["a.jpg", "b.jpg"] [] =
      .error ⟨[], ["imgs/a.jpg"], [], none, []⟩ := by
  decide

end OCR
